import Mathlib

/-!
Verification of the Short-Squeeze-Screener scripts.

The Python scripts are I/O glue around two data providers (yfinance and a
Finviz scraper), a composite squeeze-score formula, CSV ticker-list loading,
a bounded thread pool, and a news aggregator.  We embed the pure decision
logic of each function: the behaviour of the underlying HTTP / scraping /
file libraries is abstracted into explicit environment values (an exception,
a missing table, or the parsed payload), and all numbers are modelled as
exact rationals.
-/

namespace SqueezeScreener

/-- A per-ticker data record: the dict built by both data providers, with the
seven keys Ticker, ShortInterestPercent, DaysToCover, Float_Shares,
MarketCap, CurrentPrice, AvgVolume10Day. -/
structure StockRecord where
  ticker : String
  shortInterestPercent : ℚ
  daysToCover : ℚ
  float_Shares : ℚ
  marketCap : ℚ
  currentPrice : ℚ
  avgVolume10Day : ℚ
deriving DecidableEq

/-- The keys of the record dict, in the order they are written by both
providers in get_all_financial_data.py. -/
def recordKeys : List String :=
  ["Ticker", "ShortInterestPercent", "DaysToCover", "Float_Shares",
   "MarketCap", "CurrentPrice", "AvgVolume10Day"]

/-- Value of a decimal digit string. -/
def digitsToNat (ds : List Char) : ℕ :=
  ds.foldl (fun n c => 10 * n + (c.toNat - 48)) 0

/-- Modelled from Python float() restricted to plain decimal literals: an
optional sign, then digits with at most one decimal point and at least one
digit; every other string raises ValueError, modelled as Except.error. -/
def parseFloatChars (cs : List Char) : Except Unit ℚ :=
  let signed : ℚ × List Char :=
    match cs with
    | '+' :: rest => (1, rest)
    | '-' :: rest => (-1, rest)
    | _ => (1, cs)
  let intPart := signed.2.takeWhile (fun c => c != '.')
  let rest := signed.2.dropWhile (fun c => c != '.')
  if !intPart.all Char.isDigit then .error ()
  else
    match rest with
    | [] => if intPart.isEmpty then .error () else .ok (signed.1 * digitsToNat intPart)
    | _ :: fracPart =>
        if fracPart.all Char.isDigit && (!intPart.isEmpty || !fracPart.isEmpty) then
          .ok (signed.1 *
            ((digitsToNat intPart : ℚ) + (digitsToNat fracPart : ℚ) / 10 ^ fracPart.length))
        else .error ()

/-- parse_finviz_number from get_all_financial_data.py: '-' maps to 0,
otherwise uppercase, remove every '%', scale by a B/M/K suffix (removing
every such letter, as str.replace does), and parse as a float (a parse
failure raises, modelled as Except.error).  Python's upper, single-character
replace with '' and membership test are modelled on the character list. -/
def parse_finviz_number (val : String) : Except Unit ℚ :=
  if val = "-" then .ok 0
  else
    let v := (val.toList.map Char.toUpper).filter (fun c => c != '%')
    if v.contains 'B' then
      (parseFloatChars (v.filter (fun c => c != 'B'))).map (fun x => x * 1000000000)
    else if v.contains 'M' then
      (parseFloatChars (v.filter (fun c => c != 'M'))).map (fun x => x * 1000000)
    else if v.contains 'K' then
      (parseFloatChars (v.filter (fun c => c != 'K'))).map (fun x => x * 1000)
    else parseFloatChars v

/-- Python str.strip: drop leading and trailing whitespace. -/
def stripChars (cs : List Char) : List Char :=
  ((cs.dropWhile Char.isWhitespace).reverse.dropWhile Char.isWhitespace).reverse

/-- Python str.strip on a string. -/
def pyStrip (s : String) : String :=
  String.mk (stripChars s.toList)

/-- Python str.upper on a string (ASCII). -/
def pyUpper (s : String) : String :=
  String.mk (s.toList.map Char.toUpper)

/-- data.get(key, default) on the scraped Finviz snapshot dict. -/
def dictGet (data : List (String × String)) (key dflt : String) : String :=
  match data.find? (fun p => p.1 == key) with
  | some p => p.2
  | none => dflt

/-- Outcome of the Finviz HTTP request and HTML parse: the request or
raise_for_status raised, the snapshot table was absent, or the table was
scraped into a key-value dict. -/
inductive FinvizEnv where
  | httpError
  | noTable
  | table (data : List (String × String))

/-- The try-block body of fetch_data_with_finviz: fetch the page, find the
snapshot table (returning None when absent), parse Short Float and Shs Float,
return None when either is falsy, otherwise build the record (parsing the
remaining four numbers, any of which may raise). -/
def finviz_try_body (ticker : String) (env : FinvizEnv) : Except Unit (Option StockRecord) :=
  match env with
  | .httpError => .error ()
  | .noTable => .ok none
  | .table data =>
      match parse_finviz_number (dictGet data "Short Float" "0") with
      | .error e => .error e
      | .ok short_percent =>
          match parse_finviz_number (dictGet data "Shs Float" "0") with
          | .error e => .error e
          | .ok float_shares =>
              if short_percent = 0 ∨ float_shares = 0 then .ok none
              else
                match parse_finviz_number (dictGet data "Short Ratio" "0"),
                      parse_finviz_number (dictGet data "Market Cap" "0"),
                      parse_finviz_number (dictGet data "Price" "0"),
                      parse_finviz_number (dictGet data "Avg Volume" "0") with
                | .ok dtc, .ok mcap, .ok price, .ok avol =>
                    .ok (some {
                      ticker := ticker
                      shortInterestPercent := short_percent
                      daysToCover := dtc
                      float_Shares := float_shares
                      marketCap := mcap
                      currentPrice := price
                      avgVolume10Day := avol })
                | _, _, _, _ => .error ()

/-- fetch_data_with_finviz: the try body with every exception caught and
turned into None. -/
def fetch_data_with_finviz (ticker : String) (env : FinvizEnv) : Option StockRecord :=
  match finviz_try_body ticker env with
  | .error _ => none
  | .ok o => o

/-- The fields of yfinance stock.info read by fetch_data_with_yfinance;
none models an absent key.  The info key shortRatio is modelled by the
field shortRat. -/
structure YfInfo where
  shortPercentOfFloat : Option ℚ
  floatShares : Option ℚ
  shortRat : Option ℚ
  marketCap : Option ℚ
  currentPrice : Option ℚ
  previousClose : Option ℚ
  averageDailyVolume10Day : Option ℚ

/-- Outcome of the yfinance lookup: accessing stock.info raised, or it
returned an info dict. -/
inductive YfEnv where
  | raised
  | info (i : YfInfo)

/-- Python round to the nearest integer with ties to even, modelled from
Python round(). -/
def roundHalfEven (x : ℚ) : ℤ :=
  if x - ⌊x⌋ < 1/2 then ⌊x⌋
  else if x - ⌊x⌋ > 1/2 then ⌊x⌋ + 1
  else if ⌊x⌋ % 2 = 0 then ⌊x⌋ else ⌊x⌋ + 1

/-- Python round(x, 2). -/
def pyRound2 (x : ℚ) : ℚ := (roundHalfEven (x * 100) : ℚ) / 100

/-- The try-block body of fetch_data_with_yfinance: read the info dict,
return None when shortPercentOfFloat is None, floatShares is None, or
floatShares == 0, otherwise build the record with .get defaults. -/
def yfinance_try_body (ticker : String) (env : YfEnv) : Except Unit (Option StockRecord) :=
  match env with
  | .raised => .error ()
  | .info i =>
      match i.shortPercentOfFloat, i.floatShares with
      | some short_percent, some float_shares =>
          if float_shares = 0 then .ok none
          else .ok (some {
            ticker := ticker
            shortInterestPercent := pyRound2 (short_percent * 100)
            daysToCover := i.shortRat.getD 0
            float_Shares := float_shares
            marketCap := i.marketCap.getD 0
            currentPrice := i.currentPrice.getD (i.previousClose.getD 0)
            avgVolume10Day := i.averageDailyVolume10Day.getD 0 })
      | _, _ => .ok none

/-- fetch_data_with_yfinance: the try body with every exception caught and
turned into None. -/
def fetch_data_with_yfinance (ticker : String) (env : YfEnv) : Option StockRecord :=
  match yfinance_try_body ticker env with
  | .error _ => none
  | .ok o => o

/-- fetch_stock_data: tries yfinance first, then falls back to Finviz.  The
Python truthiness test `if data:` on a seven-key dict is `data is not None`. -/
def fetch_stock_data (ticker : String) (yfEnv : YfEnv) (fvEnv : FinvizEnv) : Option StockRecord :=
  match fetch_data_with_yfinance ticker yfEnv with
  | some data => some data
  | none => fetch_data_with_finviz ticker fvEnv

/-! ### Squeeze score (live_stock_analyzer.py) -/

/-- pandas drop_duplicates(subset=Ticker, keep=last): a row is kept exactly
when no later row carries the same Ticker. -/
def keepLast : List StockRecord → List StockRecord
  | [] => []
  | r :: rest =>
      if rest.any (fun s => s.ticker == r.ticker) then keepLast rest
      else r :: keepLast rest

/-- pandas Series.max over a non-empty numeric column. -/
def listMax : List ℚ → ℚ
  | [] => 0
  | [x] => x
  | x :: xs => max x (listMax xs)

/-- pandas Series.min over a non-empty numeric column. -/
def listMin : List ℚ → ℚ
  | [] => 0
  | [x] => x
  | x :: xs => min x (listMin xs)

/-- Min-max normalization of one cell, with the constant 0.5 when the
column's range is not strictly positive. -/
def normVal (v mn mx : ℚ) : ℚ :=
  if mx - mn > 0 then (v - mn) / (mx - mn) else 0.5

/-- Inverted min-max normalization (used for Float_Shares: a lower float
scores higher), with the constant 0.5 when the range is not positive. -/
def normValInv (v mn mx : ℚ) : ℚ :=
  if mx - mn > 0 then 1 - (v - mn) / (mx - mn) else 0.5

/-- combined_group: the peer group with the stock's row appended, then
drop_duplicates(subset=Ticker, keep=last). -/
def combinedGroup (stock : StockRecord) (peers : List StockRecord) : List StockRecord :=
  keepLast (peers ++ [stock])

/-- The SqueezeScore column entry for row r of group g:
(norm_si * 0.50 + norm_dtc * 0.30 + norm_float * 0.20) * 100. -/
def scoreOfRow (g : List StockRecord) (r : StockRecord) : ℚ :=
  (normVal r.shortInterestPercent
      (listMin (g.map (fun s => s.shortInterestPercent)))
      (listMax (g.map (fun s => s.shortInterestPercent))) * 0.50
   + normVal r.daysToCover
      (listMin (g.map (fun s => s.daysToCover)))
      (listMax (g.map (fun s => s.daysToCover))) * 0.30
   + normValInv r.float_Shares
      (listMin (g.map (fun s => s.float_Shares)))
      (listMax (g.map (fun s => s.float_Shares))) * 0.20) * 100

/-- calculate_squeeze_score: default 50.0 on an empty peer group, otherwise
the SqueezeScore of the first row of combined_group whose Ticker equals the
stock's (none models the IndexError of .iloc on an empty selection). -/
def calculate_squeeze_score (stock : StockRecord) (peers : List StockRecord) : Option ℚ :=
  if peers = [] then some 50
  else
    match (combinedGroup stock peers).find? (fun r => r.ticker == stock.ticker) with
    | some r => some (scoreOfRow (combinedGroup stock peers) r)
    | none => none

/-! ### Bulk pipeline (get_all_financial_data.py, __main__) -/

/-- The column selection df applied before writing the CSV. -/
def outputColumns : List String :=
  ["Ticker", "ShortInterestPercent", "DaysToCover", "Float_Shares",
   "MarketCap", "CurrentPrice", "AvgVolume10Day"]

/-- The as_completed collection loop: futures are consumed in completion
order and a result is appended exactly when it is not None. -/
def bulk_collect (completionOrder : List String) (fetch : String → Option StockRecord) :
    List StockRecord :=
  completionOrder.filterMap fetch

/-- Whether the CSV file is written: the `if not all_stock_data` guard. -/
def bulk_csv_written (rows : List StockRecord) : Bool :=
  !rows.isEmpty

/-- Whether __main__ proceeds to submit fetches: the `if not all_tickers`
guard exits without submitting anything. -/
def bulk_submits (tickers : List String) : Bool :=
  !tickers.isEmpty

/-! ### Ticker-list loading (get_all_financial_data.py) -/

/-- One symbol column of a listing CSV: dropna, then exclude every symbol
containing a dollar sign, then tolist.  str.contains of one character is
modelled on the character list. -/
def processColumn (col : List (Option String)) : List String :=
  (col.filterMap id).filter (fun s => !(s.toList.contains '$'))

/-- Filesystem outcome of get_tickers_from_local_files: a required file is
missing, a read raised, or the three symbol columns were read (none models
a NaN cell). -/
inductive TickerFilesEnv where
  | missingFile
  | readError
  | ok (nasdaq nyse other : List (Option String))

/-- get_tickers_from_local_files: empty on a missing file or read error,
otherwise list(set(combined)) shuffled.  The unspecified set order and
random.shuffle are modelled by the shuffle parameter. -/
def get_tickers_from_local_files (env : TickerFilesEnv)
    (shuffle : List String → List String) : List String :=
  match env with
  | .missingFile => []
  | .readError => []
  | .ok n y o =>
      shuffle ((processColumn n ++ processColumn y ++ processColumn o).dedup)

/-! ### Thread pool (get_all_financial_data.py, __main__) -/

/-- max_workers of the ThreadPoolExecutor. -/
def bulk_max_workers : ℕ := 50

/-- The future_to_ticker dict comprehension: exactly one future per ticker,
keyed by submission index. -/
def submitted_futures (tickers : List String) : List (ℕ × String) :=
  tickers.enum

/-- Modelled from concurrent.futures.ThreadPoolExecutor semantics: the pool
owns at most maxWorkers worker threads, each submitted task runs on exactly
one worker during a half-open time interval, and two tasks on the same
worker never overlap in time. -/
structure PoolRun (maxWorkers : ℕ) (numTasks : ℕ) where
  startAt : Fin numTasks → ℚ
  finishAt : Fin numTasks → ℚ
  workerOf : Fin numTasks → ℕ
  workerOf_lt : ∀ i, workerOf i < maxWorkers
  no_overlap : ∀ i j, i ≠ j → workerOf i = workerOf j →
    finishAt i ≤ startAt j ∨ finishAt j ≤ startAt i

/-- The tasks running at time t in a pool run. -/
def runningAt {w n : ℕ} (run : PoolRun w n) (t : ℚ) : Finset (Fin n) :=
  Finset.univ.filter (fun i => run.startAt i ≤ t ∧ t < run.finishAt i)

/-! ### Live analyzer (live_stock_analyzer.py) -/

/-- load_master_ticker_list: none when a required CSV is missing, otherwise
the set union of the three dropna'd symbol columns. -/
def load_master_ticker_list
    (env : Option (List (Option String) × List (Option String) × List (Option String))) :
    Option (List String) :=
  match env with
  | none => none
  | some (n, y, o) =>
      some ((n.filterMap id ++ y.filterMap id ++ o.filterMap id).dedup)

/-- What one iteration of the interactive loop does with the user's input. -/
inductive LoopAction where
  | breakLoop
  | skipEmpty
  | rejectInvalid (t : String)
  | liveFetch (t : String)
deriving DecidableEq

/-- One iteration of the interactive loop in main(): strip and uppercase the
input, break on QUIT/EXIT, skip the empty string, reject a ticker outside
the master set, otherwise perform the live fetch. -/
def loop_step (master : List String) (raw : String) : LoopAction :=
  if pyUpper (pyStrip raw) = "QUIT" ∨ pyUpper (pyStrip raw) = "EXIT" then .breakLoop
  else if pyUpper (pyStrip raw) = "" then .skipEmpty
  else if pyUpper (pyStrip raw) ∈ master then .liveFetch (pyUpper (pyStrip raw))
  else .rejectInvalid (pyUpper (pyStrip raw))

/-! ### News aggregator (catalyst_hunter.py) -/

/-- The limit=10 parameter of the MarketAux request URL. -/
def marketauxRequestLimit : ℕ := 10

/-- get_marketaux_news_sync: the article titles of the JSON response, or []
when the request raised (none models the exception). -/
def get_marketaux_news_sync (resp : Option (List String)) : List String :=
  resp.getD []

/-- get_google_news: strip each scraped link text, keep the non-empty ones,
and truncate to the first 15; [] when the scrape raised. -/
def get_google_news (scraped : Option (List String)) : List String :=
  match scraped with
  | none => []
  | some texts => ((texts.map pyStrip).filter (fun t => t != "")).take 15

/-- list(dict.fromkeys(l)): de-duplicate keeping each element's first
occurrence, preserving order. -/
def dedupKeepFirst : List String → List String
  | [] => []
  | a :: l => a :: dedupKeepFirst (l.filter (fun b => b != a))
termination_by l => l.length
decreasing_by
  simp only [List.length_cons]
  exact Nat.lt_succ_of_le (List.length_filter_le _ _)

/-- get_all_news: MarketAux headlines followed by Google News headlines,
[] when both are empty, otherwise de-duplicated keeping first occurrences. -/
def get_all_news (mxResp ggResp : Option (List String)) : List String :=
  let all_headlines := get_marketaux_news_sync mxResp ++ get_google_news ggResp
  if all_headlines = [] then [] else dedupKeepFirst all_headlines

/-! ### Helper lemmas -/

theorem yfinance_some_float_ne_zero (t : String) (env : YfEnv) (r : StockRecord)
    (h : fetch_data_with_yfinance t env = some r) : r.float_Shares ≠ 0 := by
  cases env with
  | raised => simp [fetch_data_with_yfinance, yfinance_try_body] at h
  | info i =>
      cases hs : i.shortPercentOfFloat with
      | none => simp [fetch_data_with_yfinance, yfinance_try_body, hs] at h
      | some sp =>
          cases hf : i.floatShares with
          | none => simp [fetch_data_with_yfinance, yfinance_try_body, hs, hf] at h
          | some fs =>
              by_cases hz : fs = 0
              · simp [fetch_data_with_yfinance, yfinance_try_body, hs, hf, hz] at h
              · simp [fetch_data_with_yfinance, yfinance_try_body, hs, hf, hz] at h
                rw [← h]
                exact hz

theorem finviz_some_nonzero (t : String) (env : FinvizEnv) (r : StockRecord)
    (h : fetch_data_with_finviz t env = some r) :
    r.shortInterestPercent ≠ 0 ∧ r.float_Shares ≠ 0 := by
  cases env with
  | httpError => simp [fetch_data_with_finviz, finviz_try_body] at h
  | noTable => simp [fetch_data_with_finviz, finviz_try_body] at h
  | table data =>
      unfold fetch_data_with_finviz at h
      simp only [finviz_try_body] at h
      cases h1 : parse_finviz_number (dictGet data "Short Float" "0") with
      | error e => simp only [h1] at h; simp at h
      | ok sp =>
          simp only [h1] at h
          cases h2 : parse_finviz_number (dictGet data "Shs Float" "0") with
          | error e => simp only [h2] at h; simp at h
          | ok fs =>
              simp only [h2] at h
              by_cases hz : sp = 0 ∨ fs = 0
              · rw [if_pos hz] at h; simp at h
              · rw [if_neg hz] at h
                push_neg at hz
                cases h3 : parse_finviz_number (dictGet data "Short Ratio" "0") with
                | error e => simp only [h3] at h; simp at h
                | ok dtc =>
                    simp only [h3] at h
                    cases h4 : parse_finviz_number (dictGet data "Market Cap" "0") with
                    | error e => simp only [h4] at h; simp at h
                    | ok mcap =>
                        simp only [h4] at h
                        cases h5 : parse_finviz_number (dictGet data "Price" "0") with
                        | error e => simp only [h5] at h; simp at h
                        | ok price =>
                            simp only [h5] at h
                            cases h6 : parse_finviz_number (dictGet data "Avg Volume" "0") with
                            | error e => simp only [h6] at h; simp at h
                            | ok avol =>
                                simp only [h6] at h
                                simp at h
                                subst h
                                exact hz

theorem le_listMax (l : List ℚ) (x : ℚ) (hx : x ∈ l) : x ≤ listMax l := by
  induction l with
  | nil => cases hx
  | cons a t ih =>
      cases t with
      | nil =>
          rcases List.mem_cons.mp hx with h | h
          · subst h; exact le_of_eq rfl
          · cases h
      | cons b u =>
          rcases List.mem_cons.mp hx with h | h
          · subst h
            show x ≤ max x (listMax (b :: u))
            exact le_max_left _ _
          · show x ≤ max a (listMax (b :: u))
            exact le_trans (ih h) (le_max_right _ _)

theorem listMin_le (l : List ℚ) (x : ℚ) (hx : x ∈ l) : listMin l ≤ x := by
  induction l with
  | nil => cases hx
  | cons a t ih =>
      cases t with
      | nil =>
          rcases List.mem_cons.mp hx with h | h
          · subst h; exact le_of_eq rfl
          · cases h
      | cons b u =>
          rcases List.mem_cons.mp hx with h | h
          · subst h
            show min x (listMin (b :: u)) ≤ x
            exact min_le_left _ _
          · show min a (listMin (b :: u)) ≤ x
            exact le_trans (min_le_right _ _) (ih h)

theorem mem_of_mem_keepLast (r : StockRecord) :
    ∀ l : List StockRecord, r ∈ keepLast l → r ∈ l := by
  intro l
  induction l with
  | nil => intro h; simp [keepLast] at h
  | cons a t ih =>
      by_cases h : (t.any (fun s => s.ticker == a.ticker)) = true
      · intro hr
        rw [show keepLast (a :: t) = keepLast t from by simp [keepLast, h]] at hr
        exact List.mem_cons_of_mem a (ih hr)
      · intro hr
        rw [show keepLast (a :: t) = a :: keepLast t from by simp [keepLast, h]] at hr
        rcases List.mem_cons.mp hr with h1 | h1
        · exact h1 ▸ List.mem_cons_self a t
        · exact List.mem_cons_of_mem a (ih h1)

theorem find?_keepLast_append (stock : StockRecord) :
    ∀ peers : List StockRecord,
      (keepLast (peers ++ [stock])).find? (fun r => r.ticker == stock.ticker) = some stock := by
  intro peers
  induction peers with
  | nil =>
      show (keepLast [stock]).find? (fun r => r.ticker == stock.ticker) = some stock
      rw [show keepLast [stock] = [stock] from by simp [keepLast]]
      simp [List.find?]
  | cons p ps ih =>
      rw [List.cons_append]
      by_cases h : ((ps ++ [stock]).any (fun s => s.ticker == p.ticker)) = true
      · rw [show keepLast (p :: (ps ++ [stock])) = keepLast (ps ++ [stock]) from by
          simp [keepLast, h]]
        exact ih
      · rw [show keepLast (p :: (ps ++ [stock])) = p :: keepLast (ps ++ [stock]) from by
          simp [keepLast, h]]
        have hst : ¬(stock.ticker == p.ticker) = true := by
          intro hc
          exact h (List.any_eq_true.mpr ⟨stock, by simp, hc⟩)
        have hpt : (p.ticker == stock.ticker) = false := by
          by_cases hb : p.ticker = stock.ticker
          · exact absurd (by rw [beq_iff_eq]; exact hb.symm) hst
          · simp [hb]
        rw [List.find?_cons_of_neg _ (by simp [hpt])]
        exact ih

theorem normVal_bounds (v mn mx : ℚ) (h1 : mn ≤ v) (h2 : v ≤ mx) :
    0 ≤ normVal v mn mx ∧ normVal v mn mx ≤ 1 := by
  unfold normVal
  split
  · rename_i hpos
    constructor
    · exact div_nonneg (by linarith) (by linarith)
    · rw [div_le_one hpos]
      linarith
  · norm_num

theorem normValInv_bounds (v mn mx : ℚ) (h1 : mn ≤ v) (h2 : v ≤ mx) :
    0 ≤ normValInv v mn mx ∧ normValInv v mn mx ≤ 1 := by
  unfold normValInv
  split
  · rename_i hpos
    have hd : 0 ≤ (v - mn) / (mx - mn) ∧ (v - mn) / (mx - mn) ≤ 1 := by
      constructor
      · exact div_nonneg (by linarith) (by linarith)
      · rw [div_le_one hpos]
        linarith
    constructor
    · linarith [hd.2]
    · linarith [hd.1]
  · norm_num

theorem scoreOfRow_bounds (g : List StockRecord) (r : StockRecord) (hr : r ∈ g) :
    0 ≤ scoreOfRow g r ∧ scoreOfRow g r ≤ 100 := by
  have m1 : r.shortInterestPercent ∈ g.map (fun s => s.shortInterestPercent) :=
    List.mem_map_of_mem _ hr
  have m2 : r.daysToCover ∈ g.map (fun s => s.daysToCover) :=
    List.mem_map_of_mem _ hr
  have m3 : r.float_Shares ∈ g.map (fun s => s.float_Shares) :=
    List.mem_map_of_mem _ hr
  have h1 := normVal_bounds r.shortInterestPercent _ _ (listMin_le _ _ m1) (le_listMax _ _ m1)
  have h2 := normVal_bounds r.daysToCover _ _ (listMin_le _ _ m2) (le_listMax _ _ m2)
  have h3 := normValInv_bounds r.float_Shares _ _ (listMin_le _ _ m3) (le_listMax _ _ m3)
  unfold scoreOfRow
  constructor <;> nlinarith [h1.1, h1.2, h2.1, h2.2, h3.1, h3.2]

/-! ### Claim theorems -/

/-- C1: fetch_stock_data first consults the primary provider
fetch_data_with_yfinance and returns its result whenever that result is not
None; only when the primary result is None does it consult the fallback
fetch_data_with_finviz and return that result; it returns None exactly when
both providers return None. -/
theorem C1_fetch_stock_data_fallback (t : String) (yfEnv : YfEnv) (fvEnv : FinvizEnv) :
    (∀ d, fetch_data_with_yfinance t yfEnv = some d →
        fetch_stock_data t yfEnv fvEnv = some d)
    ∧ (fetch_data_with_yfinance t yfEnv = none →
        fetch_stock_data t yfEnv fvEnv = fetch_data_with_finviz t fvEnv)
    ∧ (fetch_stock_data t yfEnv fvEnv = none ↔
        fetch_data_with_yfinance t yfEnv = none ∧ fetch_data_with_finviz t fvEnv = none) := by
  cases h : fetch_data_with_yfinance t yfEnv with
  | none => simp [fetch_stock_data, h]
  | some d => simp [fetch_stock_data, h]

/-- C1 witness: with the primary raising and Finviz lacking the snapshot
table, the fallback is consulted and the ticker is skipped. -/
theorem C1_fetch_stock_data_fallback_witness :
    fetch_stock_data "AAPL" YfEnv.raised FinvizEnv.noTable =
      fetch_data_with_finviz "AAPL" FinvizEnv.noTable :=
  (C1_fetch_stock_data_fallback "AAPL" YfEnv.raised FinvizEnv.noTable).2.1 rfl

/-- C3: the per-ticker fetchers never propagate an exception: whenever the
try-block body raises, the function returns None, and the only observable
outcomes are a record or None. -/
theorem C3_fetch_never_raises :
    (∀ t env e, yfinance_try_body t env = Except.error e →
        fetch_data_with_yfinance t env = none)
    ∧ (∀ t env e, finviz_try_body t env = Except.error e →
        fetch_data_with_finviz t env = none)
    ∧ (∀ t env, fetch_data_with_yfinance t env = none ∨
        ∃ r, fetch_data_with_yfinance t env = some r)
    ∧ (∀ t env, fetch_data_with_finviz t env = none ∨
        ∃ r, fetch_data_with_finviz t env = some r) := by
  refine ⟨?_, ?_, ?_, ?_⟩
  · intro t env e h; simp [fetch_data_with_yfinance, h]
  · intro t env e h; simp [fetch_data_with_finviz, h]
  · intro t env
    cases h : fetch_data_with_yfinance t env with
    | none => exact Or.inl rfl
    | some r => exact Or.inr ⟨r, rfl⟩
  · intro t env
    cases h : fetch_data_with_finviz t env with
    | none => exact Or.inl rfl
    | some r => exact Or.inr ⟨r, rfl⟩

/-- C3 witness: a raising yfinance lookup yields None. -/
theorem C3_fetch_never_raises_witness :
    yfinance_try_body "AAPL" YfEnv.raised = Except.error ()
    ∧ fetch_data_with_yfinance "AAPL" YfEnv.raised = none :=
  ⟨rfl, C3_fetch_never_raises.1 "AAPL" YfEnv.raised () rfl⟩

/-- C8: every record returned by fetch_stock_data carries the seven keys
Ticker, ShortInterestPercent, DaysToCover, Float_Shares, MarketCap,
CurrentPrice, AvgVolume10Day, and its Float_Shares is never 0; the Finviz
path additionally guarantees ShortInterestPercent is never 0, while the
yfinance path can return a record with ShortInterestPercent 0. -/
theorem C8_record_invariants :
    recordKeys = ["Ticker", "ShortInterestPercent", "DaysToCover", "Float_Shares",
      "MarketCap", "CurrentPrice", "AvgVolume10Day"]
    ∧ (∀ t yfEnv fvEnv r, fetch_stock_data t yfEnv fvEnv = some r → r.float_Shares ≠ 0)
    ∧ (∀ t env r, fetch_data_with_finviz t env = some r →
        r.shortInterestPercent ≠ 0 ∧ r.float_Shares ≠ 0)
    ∧ (∃ env r, fetch_data_with_yfinance "A" env = some r ∧ r.shortInterestPercent = 0) := by
  refine ⟨rfl, ?_, fun t env r h => finviz_some_nonzero t env r h, ?_⟩
  · intro t yfEnv fvEnv r h
    unfold fetch_stock_data at h
    cases hy : fetch_data_with_yfinance t yfEnv with
    | some d =>
        rw [hy] at h
        simp at h
        subst h
        exact yfinance_some_float_ne_zero t yfEnv _ hy
    | none =>
        rw [hy] at h
        simp at h
        exact (finviz_some_nonzero t fvEnv r h).2
  · refine ⟨YfEnv.info ⟨some 0, some 1, none, none, none, none, none⟩,
      ⟨"A", pyRound2 (0 * 100), 0, 1, 0, 0, 0⟩, ?_, ?_⟩
    · simp only [fetch_data_with_yfinance, yfinance_try_body]
      rw [if_neg (by norm_num : ¬(1 : ℚ) = 0)]
      rfl
    · show pyRound2 (0 * 100) = 0
      norm_num [pyRound2, roundHalfEven, Int.floor_zero]

theorem finviz_witness_eval :
    fetch_data_with_finviz "GME"
        (FinvizEnv.table [("Short Float", "5%"), ("Shs Float", "1M")]) =
      some ⟨"GME", 5, 0, 1000000, 0, 0, 0⟩ := by
  have p1 : parse_finviz_number "5%" = Except.ok (1 * ((digitsToNat ['5'] : ℕ) : ℚ)) := rfl
  have p2 : parse_finviz_number "1M" =
      Except.ok (1 * ((digitsToNat ['1'] : ℕ) : ℚ) * 1000000) := rfl
  have p3 : parse_finviz_number "0" = Except.ok (1 * ((digitsToNat ['0'] : ℕ) : ℚ)) := rfl
  have d1 : digitsToNat ['5'] = 5 := by decide
  have d2 : digitsToNat ['1'] = 1 := by decide
  have d3 : digitsToNat ['0'] = 0 := by decide
  rw [d1] at p1; rw [d2] at p2; rw [d3] at p3
  have q1 : parse_finviz_number "5%" = Except.ok 5 := by rw [p1]; norm_num
  have q2 : parse_finviz_number "1M" = Except.ok 1000000 := by rw [p2]; norm_num
  have q3 : parse_finviz_number "0" = Except.ok 0 := by rw [p3]; norm_num
  have g1 : dictGet [("Short Float", "5%"), ("Shs Float", "1M")] "Short Float" "0" = "5%" := rfl
  have g2 : dictGet [("Short Float", "5%"), ("Shs Float", "1M")] "Shs Float" "0" = "1M" := rfl
  have g3 : ∀ k, k = "Short Ratio" ∨ k = "Market Cap" ∨ k = "Price" ∨ k = "Avg Volume" →
      dictGet [("Short Float", "5%"), ("Shs Float", "1M")] k "0" = "0" := by
    intro k hk
    rcases hk with h | h | h | h <;> subst h <;> rfl
  unfold fetch_data_with_finviz
  simp only [finviz_try_body, g1, g2, g3 _ (Or.inl rfl), g3 _ (Or.inr (Or.inl rfl)),
    g3 _ (Or.inr (Or.inr (Or.inl rfl))), g3 _ (Or.inr (Or.inr (Or.inr rfl))), q1, q2, q3]
  rw [if_neg (by norm_num : ¬((5 : ℚ) = 0 ∨ (1000000 : ℚ) = 0))]

/-- C8 witness: a Finviz snapshot with Short Float 5% and Shs Float 1M
yields a record whose short interest and float are both non-zero. -/
theorem C8_record_invariants_witness :
    fetch_data_with_finviz "GME"
        (FinvizEnv.table [("Short Float", "5%"), ("Shs Float", "1M")]) =
      some ⟨"GME", 5, 0, 1000000, 0, 0, 0⟩
    ∧ ((5 : ℚ) ≠ 0 ∧ (1000000 : ℚ) ≠ 0) :=
  ⟨finviz_witness_eval, C8_record_invariants.2.2.1 "GME" _ _ finviz_witness_eval⟩

/-- C2: for every stock and non-empty peer group whose combined group (the
peer group with the stock's row appended, duplicate Tickers dropped keeping
the last) has strictly positive range in each of the three metrics, the
returned score is 100 * (0.50 * norm_si + 0.30 * norm_dtc + 0.20 *
norm_float), where norm_si and norm_dtc min-max normalize the stock's
values over the combined group, and norm_float is the inverted
normalization; a zero-range metric contributes 0.5 instead, and every
returned score lies in [0, 100]. -/
theorem C2_squeeze_score_formula (stock : StockRecord) (peers : List StockRecord)
    (hne : peers ≠ [])
    (hsi : listMin ((combinedGroup stock peers).map (fun s => s.shortInterestPercent)) <
           listMax ((combinedGroup stock peers).map (fun s => s.shortInterestPercent)))
    (hdtc : listMin ((combinedGroup stock peers).map (fun s => s.daysToCover)) <
            listMax ((combinedGroup stock peers).map (fun s => s.daysToCover)))
    (hfl : listMin ((combinedGroup stock peers).map (fun s => s.float_Shares)) <
           listMax ((combinedGroup stock peers).map (fun s => s.float_Shares))) :
    calculate_squeeze_score stock peers =
      some (100 * (0.50 *
          ((stock.shortInterestPercent -
              listMin ((combinedGroup stock peers).map (fun s => s.shortInterestPercent))) /
            (listMax ((combinedGroup stock peers).map (fun s => s.shortInterestPercent)) -
              listMin ((combinedGroup stock peers).map (fun s => s.shortInterestPercent))))
        + 0.30 *
          ((stock.daysToCover -
              listMin ((combinedGroup stock peers).map (fun s => s.daysToCover))) /
            (listMax ((combinedGroup stock peers).map (fun s => s.daysToCover)) -
              listMin ((combinedGroup stock peers).map (fun s => s.daysToCover))))
        + 0.20 * (1 -
          (stock.float_Shares -
              listMin ((combinedGroup stock peers).map (fun s => s.float_Shares))) /
            (listMax ((combinedGroup stock peers).map (fun s => s.float_Shares)) -
              listMin ((combinedGroup stock peers).map (fun s => s.float_Shares))))))
    ∧ (∀ s ps q, calculate_squeeze_score s ps = some q → 0 ≤ q ∧ q ≤ 100) := by
  constructor
  · unfold calculate_squeeze_score
    rw [if_neg hne]
    rw [show (combinedGroup stock peers).find? (fun r => r.ticker == stock.ticker) = some stock
        from find?_keepLast_append stock peers]
    show some (scoreOfRow (combinedGroup stock peers) stock) = _
    congr 1
    unfold scoreOfRow normVal normValInv
    rw [if_pos (sub_pos.mpr hsi), if_pos (sub_pos.mpr hdtc), if_pos (sub_pos.mpr hfl)]
    ring
  · intro s ps q h
    unfold calculate_squeeze_score at h
    by_cases hps : ps = []
    · rw [if_pos hps] at h
      simp at h
      subst h
      norm_num
    · rw [if_neg hps] at h
      cases hf : (combinedGroup s ps).find? (fun r => r.ticker == s.ticker) with
      | none => rw [hf] at h; simp at h
      | some r =>
          rw [hf] at h
          simp at h
          subst h
          exact scoreOfRow_bounds _ r (List.mem_of_find?_eq_some hf)

/-- C2 witness: with stock A (SI 10, DTC 2, float 100) against the single
peer B (SI 0, DTC 0, float 200), every range is positive and the score
evaluates to 100. -/
theorem C2_squeeze_score_formula_witness :
    calculate_squeeze_score (⟨"A", 10, 2, 100, 0, 0, 0⟩ : StockRecord)
      [(⟨"B", 0, 0, 200, 0, 0, 0⟩ : StockRecord)] = some 100 := by
  have h := (C2_squeeze_score_formula (⟨"A", 10, 2, 100, 0, 0, 0⟩ : StockRecord)
    [(⟨"B", 0, 0, 200, 0, 0, 0⟩ : StockRecord)]
    (by decide) (by decide) (by decide) (by decide)).1
  rw [h]
  rw [show listMin ((combinedGroup (⟨"A", 10, 2, 100, 0, 0, 0⟩ : StockRecord)
      [(⟨"B", 0, 0, 200, 0, 0, 0⟩ : StockRecord)]).map (fun s => s.shortInterestPercent)) = 0
    from by decide]
  rw [show listMax ((combinedGroup (⟨"A", 10, 2, 100, 0, 0, 0⟩ : StockRecord)
      [(⟨"B", 0, 0, 200, 0, 0, 0⟩ : StockRecord)]).map (fun s => s.shortInterestPercent)) = 10
    from by decide]
  rw [show listMin ((combinedGroup (⟨"A", 10, 2, 100, 0, 0, 0⟩ : StockRecord)
      [(⟨"B", 0, 0, 200, 0, 0, 0⟩ : StockRecord)]).map (fun s => s.daysToCover)) = 0
    from by decide]
  rw [show listMax ((combinedGroup (⟨"A", 10, 2, 100, 0, 0, 0⟩ : StockRecord)
      [(⟨"B", 0, 0, 200, 0, 0, 0⟩ : StockRecord)]).map (fun s => s.daysToCover)) = 2
    from by decide]
  rw [show listMin ((combinedGroup (⟨"A", 10, 2, 100, 0, 0, 0⟩ : StockRecord)
      [(⟨"B", 0, 0, 200, 0, 0, 0⟩ : StockRecord)]).map (fun s => s.float_Shares)) = 100
    from by decide]
  rw [show listMax ((combinedGroup (⟨"A", 10, 2, 100, 0, 0, 0⟩ : StockRecord)
      [(⟨"B", 0, 0, 200, 0, 0, 0⟩ : StockRecord)]).map (fun s => s.float_Shares)) = 200
    from by decide]
  norm_num

/-- C9: on an empty peer group, calculate_squeeze_score returns the default
50.0 for every stock record, inspecting none of its fields. -/
theorem C9_empty_peer_group_default_score (stock : StockRecord) :
    calculate_squeeze_score stock [] = some 50 := by
  simp [calculate_squeeze_score]

/-- C4: the collected table is, up to completion order, exactly the
non-None results of fetch_stock_data — one row per successful ticker, with
the seven output columns in their fixed order — and the CSV is written iff
at least one ticker's fetch succeeded. -/
theorem C4_bulk_collect_and_write (tickers completionOrder : List String)
    (fetch : String → Option StockRecord)
    (hperm : List.Perm completionOrder tickers) :
    List.Perm (bulk_collect completionOrder fetch) (tickers.filterMap fetch)
    ∧ (bulk_csv_written (bulk_collect completionOrder fetch) = true ↔
        ∃ t ∈ tickers, fetch t ≠ none)
    ∧ outputColumns = recordKeys := by
  have hp : List.Perm (bulk_collect completionOrder fetch) (tickers.filterMap fetch) :=
    hperm.filterMap fetch
  have hnil : bulk_collect completionOrder fetch = [] ↔ tickers.filterMap fetch = [] := by
    constructor
    · intro h0
      exact (List.Perm.symm (h0 ▸ hp)).eq_nil
    · intro h0
      exact (h0 ▸ hp).eq_nil
  refine ⟨hp, ?_, rfl⟩
  rw [bulk_csv_written]
  constructor
  · intro hw
    by_contra hno
    push_neg at hno
    have h0 : tickers.filterMap fetch = [] := List.filterMap_eq_nil_iff.mpr hno
    rw [hnil.mpr h0] at hw
    simp at hw
  · rintro ⟨t, ht, hft⟩
    have hf : tickers.filterMap fetch ≠ [] := by
      intro h0
      exact hft (List.filterMap_eq_nil_iff.mp h0 t ht)
    have hne : bulk_collect completionOrder fetch ≠ [] := fun h0 => hf (hnil.mp h0)
    cases hcol : bulk_collect completionOrder fetch with
    | nil => exact absurd hcol hne
    | cons a l => simp

/-- C4 witness: with tickers A, B completing in order B, A and only A
succeeding, the collected rows are a permutation of the successful results. -/
theorem C4_bulk_collect_and_write_witness :
    List.Perm (bulk_collect ["B", "A"]
        (fun t => if t = "A" then some ⟨"A", 1, 1, 1, 1, 1, 1⟩ else none))
      (["A", "B"].filterMap
        (fun t => if t = "A" then some ⟨"A", 1, 1, 1, 1, 1, 1⟩ else none)) :=
  (C4_bulk_collect_and_write ["A", "B"] ["B", "A"]
    (fun t => if t = "A" then some ⟨"A", 1, 1, 1, 1, 1, 1⟩ else none)
    (List.Perm.swap "A" "B" [])).1

/-- C5: get_tickers_from_local_files returns [] when a required file is
missing or a read raises; otherwise it returns a duplicate-free permutation
of the set of symbols of the three columns, dropping missing values and
excluding symbols containing a dollar sign; an empty return makes __main__
exit without submitting any fetch. -/
theorem C5_ticker_list_loading (shuffle : List String → List String)
    (hshuffle : ∀ l, List.Perm (shuffle l) l) :
    get_tickers_from_local_files TickerFilesEnv.missingFile shuffle = []
    ∧ get_tickers_from_local_files TickerFilesEnv.readError shuffle = []
    ∧ (∀ n y o, (get_tickers_from_local_files (TickerFilesEnv.ok n y o) shuffle).Nodup
        ∧ (∀ s, s ∈ get_tickers_from_local_files (TickerFilesEnv.ok n y o) shuffle ↔
            ((some s ∈ n ∨ some s ∈ y ∨ some s ∈ o) ∧ s.toList.contains '$' = false)))
    ∧ (∀ env, get_tickers_from_local_files env shuffle = [] →
        bulk_submits (get_tickers_from_local_files env shuffle) = false) := by
  refine ⟨rfl, rfl, ?_, ?_⟩
  · intro n y o
    constructor
    · exact ((hshuffle _).nodup_iff).mpr (List.nodup_dedup _)
    · intro s
      rw [show get_tickers_from_local_files (TickerFilesEnv.ok n y o) shuffle =
          shuffle ((processColumn n ++ processColumn y ++ processColumn o).dedup) from rfl]
      rw [List.Perm.mem_iff (hshuffle _)]
      rw [List.mem_dedup]
      simp only [List.mem_append, processColumn, List.mem_filter, List.mem_filterMap,
        id_eq, exists_eq_right, Bool.not_eq_true']
      tauto
  · intro env h0
    rw [h0]
    rfl

/-- C5 witness: with all files readable, a one-symbol NASDAQ column yields
that symbol, and the missing-file case yields the empty list. -/
theorem C5_ticker_list_loading_witness :
    get_tickers_from_local_files TickerFilesEnv.missingFile id = []
    ∧ "AB" ∈ get_tickers_from_local_files (TickerFilesEnv.ok [some "AB"] [] [none]) id := by
  have h := C5_ticker_list_loading id (fun l => List.Perm.refl l)
  refine ⟨h.1, ?_⟩
  exact ((h.2.2.1 [some "AB"] [] [none]).2 "AB").mpr ⟨Or.inl (by simp), by decide⟩

/-- C6: the bulk fetch runs on a bounded pool: one fetch_stock_data task is
submitted per ticker to the executor with max_workers = 50, so at most 50
tasks run at any time, and every submitted future is consumed exactly once
by the as_completed loop. -/
theorem C6_bounded_worker_pool (tickers : List String)
    (run : PoolRun bulk_max_workers (submitted_futures tickers).length) (t : ℚ)
    (completionOrder : List (ℕ × String))
    (hperm : List.Perm completionOrder (submitted_futures tickers)) :
    (runningAt run t).card ≤ 50
    ∧ (submitted_futures tickers).map Prod.snd = tickers
    ∧ (∀ f ∈ submitted_futures tickers,
        Multiset.count f (completionOrder : Multiset (ℕ × String)) = 1) := by
  refine ⟨?_, ?_, ?_⟩
  · have hcard : (runningAt run t).card ≤ (Finset.range bulk_max_workers).card := by
      apply Finset.card_le_card_of_injOn (fun i => run.workerOf i)
      · intro i _
        exact Finset.mem_range.mpr (run.workerOf_lt i)
      · intro i hi j hj hw
        by_contra hne
        simp only [Finset.coe_filter, runningAt, Set.mem_setOf_eq, Finset.mem_filter] at hi hj
        rcases run.no_overlap i j hne hw with hd | hd
        · linarith [hi.2.1, hi.2.2, hj.2.1, hj.2.2]
        · linarith [hi.2.1, hi.2.2, hj.2.1, hj.2.2]
    simpa [Finset.card_range, bulk_max_workers] using hcard
  · exact List.enum_map_snd tickers
  · intro f hf
    rw [Multiset.coe_eq_coe.mpr hperm]
    have hnd : (submitted_futures tickers).Nodup := by
      apply List.Nodup.of_map Prod.fst
      rw [show (submitted_futures tickers).map Prod.fst = List.range tickers.length
        from List.enum_map_fst tickers]
      exact List.nodup_range _
    exact Multiset.count_eq_one_of_mem (Multiset.coe_nodup.mpr hnd) (Multiset.mem_coe.mpr hf)

/-- A one-task pool run used as the C6 witness. -/
def w_poolRun : PoolRun bulk_max_workers (submitted_futures ["A"]).length where
  startAt := fun _ => 0
  finishAt := fun _ => 0
  workerOf := fun _ => 0
  workerOf_lt := fun _ => by norm_num [bulk_max_workers]
  no_overlap := fun _ _ _ _ => Or.inl (le_refl 0)

/-- C6 witness: a single ticker, one submitted future, consumed once. -/
theorem C6_bounded_worker_pool_witness :
    (runningAt w_poolRun 0).card ≤ 50
    ∧ (submitted_futures ["A"]).map Prod.snd = ["A"]
    ∧ (∀ f ∈ submitted_futures ["A"],
        Multiset.count f (([(0, "A")] : List (ℕ × String)) : Multiset (ℕ × String)) = 1) :=
  C6_bounded_worker_pool ["A"] w_poolRun 0 [(0, "A")]
    (by rw [show submitted_futures ["A"] = [(0, "A")] from rfl])

/-- C7: in the interactive loop, the stripped-and-uppercased input triggers
a live fetch exactly when it is not QUIT or EXIT, not empty, and a member
of the master ticker set (the union of the three CSV symbol columns); a
ticker outside the master set is rejected, with no fetch performed. -/
theorem C7_live_loop_validation (n y o : List (Option String)) (raw : String)
    (master : List String)
    (hm : load_master_ticker_list (some (n, y, o)) = some master) :
    (loop_step master raw = LoopAction.liveFetch (pyUpper (pyStrip raw)) ↔
      (pyUpper (pyStrip raw) ≠ "QUIT" ∧ pyUpper (pyStrip raw) ≠ "EXIT"
        ∧ pyUpper (pyStrip raw) ≠ "" ∧ pyUpper (pyStrip raw) ∈ master))
    ∧ ((pyUpper (pyStrip raw) ∉ master ∧ pyUpper (pyStrip raw) ≠ "QUIT"
        ∧ pyUpper (pyStrip raw) ≠ "EXIT" ∧ pyUpper (pyStrip raw) ≠ "") →
      loop_step master raw = LoopAction.rejectInvalid (pyUpper (pyStrip raw)))
    ∧ (∀ s, s ∈ master ↔ (some s ∈ n ∨ some s ∈ y ∨ some s ∈ o)) := by
  have hmaster : master = (n.filterMap id ++ y.filterMap id ++ o.filterMap id).dedup := by
    have := hm
    unfold load_master_ticker_list at this
    exact (Option.some.injEq _ _).mp this.symm
  refine ⟨?_, ?_, ?_⟩
  · by_cases h1 : pyUpper (pyStrip raw) = "QUIT" ∨ pyUpper (pyStrip raw) = "EXIT"
    · rw [show loop_step master raw = LoopAction.breakLoop from by simp [loop_step, h1]]
      constructor
      · intro hc
        exact absurd hc (by simp)
      · rintro ⟨hq, he, _, _⟩
        rcases h1 with h | h
        · exact absurd h hq
        · exact absurd h he
    · push_neg at h1
      by_cases h2 : pyUpper (pyStrip raw) = ""
      · rw [show loop_step master raw = LoopAction.skipEmpty from by
          simp [loop_step, h1.1, h1.2, h2]]
        constructor
        · intro hc
          exact absurd hc (by simp)
        · rintro ⟨_, _, hne, _⟩
          exact absurd h2 hne
      · by_cases h3 : pyUpper (pyStrip raw) ∈ master
        · rw [show loop_step master raw = LoopAction.liveFetch (pyUpper (pyStrip raw)) from by
            simp [loop_step, h1.1, h1.2, h2, h3]]
          simp [h1.1, h1.2, h2, h3]
        · rw [show loop_step master raw = LoopAction.rejectInvalid (pyUpper (pyStrip raw)) from by
            simp [loop_step, h1.1, h1.2, h2, h3]]
          constructor
          · intro hc
            exact absurd hc (by simp)
          · rintro ⟨_, _, _, hmem⟩
            exact absurd hmem h3
  · rintro ⟨hnm, hq, he, hne⟩
    simp [loop_step, hq, he, hne, hnm]
  · intro s
    rw [hmaster, List.mem_dedup]
    simp only [List.mem_append, List.mem_filterMap, id_eq, exists_eq_right]
    tauto

/-- C7 witness: with master list GME, the input " gme " is normalized and
triggers a live fetch. -/
theorem C7_live_loop_validation_witness :
    loop_step ["GME"] " gme " = LoopAction.liveFetch "GME" := by
  have he : pyUpper (pyStrip " gme ") = "GME" := by decide
  have h := (C7_live_loop_validation [some "GME"] [] [] " gme " ["GME"] (by decide)).1
  rw [he] at h
  exact h.mpr ⟨by decide, by decide, by decide, by decide⟩

theorem dedupKeepFirst_props : ∀ (n : ℕ) (l : List String), l.length ≤ n →
    List.Sublist (dedupKeepFirst l) l ∧ (dedupKeepFirst l).Nodup ∧
      (∀ a, a ∈ dedupKeepFirst l ↔ a ∈ l) := by
  intro n
  induction n with
  | zero =>
      intro l hl
      rw [List.eq_nil_of_length_eq_zero (Nat.le_zero.mp hl)]
      simp [dedupKeepFirst]
  | succ n ih =>
      intro l hl
      cases l with
      | nil => simp [dedupKeepFirst]
      | cons b s =>
          have hlen : (s.filter (fun x => x != b)).length ≤ n :=
            le_trans (List.length_filter_le _ s) (Nat.succ_le_succ_iff.mp hl)
          have hrec := ih (s.filter (fun x => x != b)) hlen
          rw [show dedupKeepFirst (b :: s) = b :: dedupKeepFirst (s.filter (fun x => x != b))
            from by rw [dedupKeepFirst]]
          refine ⟨?_, ?_, ?_⟩
          · exact List.Sublist.cons₂ b (hrec.1.trans (List.filter_sublist s))
          · refine List.nodup_cons.mpr ⟨?_, hrec.2.1⟩
            intro hb
            have := List.mem_filter.mp ((hrec.2.2 b).mp hb)
            simp at this
          · intro a
            by_cases hab : a = b
            · subst hab
              simp
            · simp only [List.mem_cons, hab, false_or]
              rw [hrec.2.2 a, List.mem_filter]
              simp [hab]

theorem dedupKeepFirst_eq_nil_iff (l : List String) : dedupKeepFirst l = [] ↔ l = [] := by
  cases l with
  | nil => simp [dedupKeepFirst]
  | cons b s =>
      rw [show dedupKeepFirst (b :: s) = b :: dedupKeepFirst (s.filter (fun x => x != b))
        from by rw [dedupKeepFirst]]
      simp

/-- C10: get_all_news returns the MarketAux headlines (at most the
requested limit of 10) followed by the Google News headlines (truncated to
15), de-duplicated keeping each headline's first occurrence; it is empty
exactly when both sources are, and never repeats a headline. -/
theorem C10_news_aggregation (mxResp ggResp : Option (List String))
    (hlimit : (get_marketaux_news_sync mxResp).length ≤ marketauxRequestLimit) :
    get_all_news mxResp ggResp =
      dedupKeepFirst (get_marketaux_news_sync mxResp ++ get_google_news ggResp)
    ∧ (get_all_news mxResp ggResp).Nodup
    ∧ (get_all_news mxResp ggResp = [] ↔
        get_marketaux_news_sync mxResp = [] ∧ get_google_news ggResp = [])
    ∧ (get_marketaux_news_sync mxResp).length ≤ 10
    ∧ (get_google_news ggResp).length ≤ 15
    ∧ List.Sublist (get_all_news mxResp ggResp)
        (get_marketaux_news_sync mxResp ++ get_google_news ggResp) := by
  have hprops := dedupKeepFirst_props
    (get_marketaux_news_sync mxResp ++ get_google_news ggResp).length
    (get_marketaux_news_sync mxResp ++ get_google_news ggResp) le_rfl
  have heq : get_all_news mxResp ggResp =
      dedupKeepFirst (get_marketaux_news_sync mxResp ++ get_google_news ggResp) := by
    unfold get_all_news
    by_cases h0 : get_marketaux_news_sync mxResp ++ get_google_news ggResp = []
    · rw [if_pos h0, h0, dedupKeepFirst]
    · rw [if_neg h0]
  refine ⟨heq, ?_, ?_, ?_, ?_, ?_⟩
  · rw [heq]
    exact hprops.2.1
  · rw [heq, dedupKeepFirst_eq_nil_iff, List.append_eq_nil]
  · exact hlimit
  · cases ggResp with
    | none => simp [get_google_news]
    | some texts =>
        rw [show get_google_news (some texts) =
            ((texts.map pyStrip).filter (fun t => t != "")).take 15 from rfl]
        exact List.length_take_le 15 _
  · rw [heq]
    exact hprops.1

/-- C10 witness: a single MarketAux headline and a failed Google scrape. -/
theorem C10_news_aggregation_witness :
    (get_marketaux_news_sync (some ["X up 50%"])).length ≤ marketauxRequestLimit
    ∧ get_all_news (some ["X up 50%"]) none =
        dedupKeepFirst (get_marketaux_news_sync (some ["X up 50%"]) ++ get_google_news none) :=
  ⟨by decide, (C10_news_aggregation (some ["X up 50%"]) none (by decide)).1⟩

end SqueezeScreener
